import Mathlib

/-!
Verification of the expense categorizer (src/steamlit.py).

The script has three pieces of data logic, embedded below:
* `categorize` — keyword-substring category matching over an ordered rule set
  (lines 25-30 and the default table in `load_categories`, lines 9-20);
* the upload handler pipeline — column validation, row dropping, numeric
  coercion, date synthesis and month derivation (lines 43-56), embedded as
  `validate_and_clean`;
* the aggregations — per-category and per-month group-by sums, the fixed
  four-category budget table and the tips lookup (lines 63, 68-76, 103,
  121-132, 144).

Modelling conventions: pandas amounts are embedded as rationals; a raw
amount cell is `Option (Option ℚ)` — the outer layer is presence of the
cell in the row, the inner layer is the outcome that `pd.to_numeric`
with coerce-errors would give it (`some q` if the cell is numeric or a
numeric-like string with value `q`, `none` if coercion fails).  Dates are
epoch day numbers (`Int`); `datetime.today()` is an explicit `today`
parameter; the year-month bucket that `dt.to_period` derives is computed
by `monthOf` via the standard civil-from-days conversion.
-/

namespace ExpenseCategorizer

/-- The built-in default rule set returned by `load_categories` when
`categories.json` is absent (lines 14-20): an ordered sequence of
(category name, keyword list) pairs, in declaration order. -/
def load_categories : List (String × List String) :=
  [("groceries", ["walmart", "supermarket", "grocery", "aldi"]),
   ("rent", ["rent", "apartment"]),
   ("utilities", ["electric", "water", "gas", "internet"]),
   ("entertainment", ["netflix", "cinema", "movie", "concert"]),
   ("other", [])]

/-- The module-level `categories` value (line 22). -/
def categories : List (String × List String) := load_categories

/-- Tests whether `needle` occurs as a contiguous run inside the second
list — the semantics of the Python `in` operator on strings, on
character lists. -/
def occursIn (needle : List Char) : List Char → Bool
  | [] => needle.isEmpty
  | c :: rest => needle.isPrefixOf (c :: rest) || occursIn needle rest

/-- ASCII lower-casing of one character — the effect of `str.lower()`
(line 26) on the ASCII descriptions this pipeline handles. -/
def lowerChar (c : Char) : Char :=
  if 65 ≤ c.toNat ∧ c.toNat ≤ 90 then Char.ofNat (c.toNat + 32) else c

/-- Python substring membership `keyword in description.lower()` after
lower-casing the description (lines 26 and 28). -/
def keywordMatches (description : String) (kw : String) : Bool :=
  occursIn kw.data (description.data.map lowerChar)

/-- One rule-set entry matches when any of its keywords occurs in the
description — `any(keyword in description for keyword in keywords)`
(line 28). -/
def entryMatches (description : String) (e : String × List String) : Bool :=
  e.2.any (fun kw => keywordMatches description kw)

/-- The categorizer (lines 25-30): walk the rule set in declaration order,
return the first category one of whose keywords occurs in the lower-cased
description, and `"other"` when none matches.  The source closes over the
module-level `categories`; the rule set is an explicit argument here so
that the theorems can quantify over it. -/
def categorize (rules : List (String × List String)) (description : String) : String :=
  match rules.find? (entryMatches description) with
  | some e => e.1
  | none => "other"

/-- C1 -- First-declared match wins: if the lower-cased description matches a
keyword of category `c` and matches no keyword of any category declared
earlier in the rule set, `categorize` returns `c`; and the built-in defaults
are declared in the order groceries, rent, utilities, entertainment, other,
so a description matching both a groceries and a rent keyword is assigned
to groceries. -/
theorem categorize_first_match_wins
    (d c : String) (kws : List String) (pre post : List (String × List String))
    (hpre : ∀ e ∈ pre, entryMatches d e = false)
    (hc : entryMatches d (c, kws) = true) :
    categorize (pre ++ (c, kws) :: post) d = c ∧
    categories.map Prod.fst =
      ["groceries", "rent", "utilities", "entertainment", "other"] ∧
    categorize categories "Walmart rent payment" = "groceries" := by
  refine ⟨?_, by decide, by decide⟩
  induction pre with
  | nil => simp [categorize, List.find?, hc]
  | cons e pre ih =>
      have he : entryMatches d e = false := hpre e (by simp)
      have hrest : ∀ x ∈ pre, entryMatches d x = false :=
        fun x hx => hpre x (by simp [hx])
      simpa [categorize, List.find?, he] using ih hrest

/-- Closed instance of `categorize_first_match_wins`: the description
"rent netflix" matches a rent keyword and no groceries keyword, so with the
default rules it is categorized as rent. -/
theorem categorize_first_match_wins_witness :
    categorize ([("groceries", ["walmart", "supermarket", "grocery", "aldi"])] ++
      ("rent", ["rent", "apartment"]) ::
      [("utilities", ["electric", "water", "gas", "internet"]),
       ("entertainment", ["netflix", "cinema", "movie", "concert"]),
       ("other", [])]) "rent netflix" = "rent" :=
  (categorize_first_match_wins "rent netflix" "rent" ["rent", "apartment"]
    [("groceries", ["walmart", "supermarket", "grocery", "aldi"])]
    [("utilities", ["electric", "water", "gas", "internet"]),
     ("entertainment", ["netflix", "cinema", "movie", "concert"]),
     ("other", [])]
    (by decide) (by decide)).1

/-- C8 -- When no entry of the rule set matches the description,
`categorize` returns `"other"`; and an entry with an empty keyword list
never matches any description. -/
theorem categorize_no_match_other
    (rules : List (String × List String)) (d : String)
    (h : ∀ e ∈ rules, entryMatches d e = false) :
    categorize rules d = "other" ∧ ∀ c : String, entryMatches d (c, []) = false := by
  refine ⟨?_, fun c => rfl⟩
  have hnone : rules.find? (entryMatches d) = none := by
    rw [List.find?_eq_none]
    intro x hx
    simp [h x hx]
  simp [categorize, hnone]

/-- Closed instance of `categorize_no_match_other`: "cash withdrawal"
matches no default keyword and is categorized as other. -/
theorem categorize_no_match_other_witness :
    categorize categories "cash withdrawal" = "other" :=
  (categorize_no_match_other categories "cash withdrawal" (by decide)).1

/-- C10 -- `categorize` is a total function (it is a terminating Lean
definition) and its result is always either one of the category names of the rule
set or the literal `"other"`. -/
theorem categorize_result_in_rules (rules : List (String × List String)) (d : String) :
    categorize rules d ∈ rules.map Prod.fst ++ ["other"] := by
  unfold categorize
  cases hf : rules.find? (entryMatches d) with
  | none => simp
  | some e =>
      have := List.mem_of_find?_eq_some hf
      simp only [List.mem_append]
      exact Or.inl (List.mem_map.mpr ⟨e, this, rfl⟩)

/-- A cleaned, categorized transaction row: the columns of the dataframe
after lines 47-56 (`Description`, `Amount`, `Category`, `Date`, `Month`).
`date` is `none` for a NaT entry of a present `Date` column; `month` is
derived from `date`. -/
structure Transaction where
  description : String
  amount : ℚ
  category : String
  date : Option Int
  month : Option (Int × Int)
deriving DecidableEq

/-- Sum of a mapped list splits along a Boolean predicate into the part
where the predicate holds and the part where it fails. -/
theorem sum_map_filter_split {α : Type} (g : α → ℚ) (p : α → Bool) (l : List α) :
    ((l.filter p).map g).sum + ((l.filter (fun x => !(p x))).map g).sum
      = (l.map g).sum := by
  induction l with
  | nil => simp
  | cons a l ih =>
      cases h : p a <;> simp [List.filter_cons, h] <;> linarith [ih]

/-- Removing the fiber of a different key does not change a fiber:
filtering away the rows with key `k` leaves the fiber of `k' ≠ k` intact. -/
theorem fiber_filter_ne {α κ : Type} [DecidableEq κ] (f : α → κ) (k k' : κ)
    (hne : k' ≠ k) (l : List α) :
    ((l.filter (fun x => !(decide (f x = k)))).filter (fun x => decide (f x = k')))
      = l.filter (fun x => decide (f x = k')) := by
  induction l with
  | nil => rfl
  | cons a l ih =>
      by_cases h : f a = k'
      · have hk : ¬ f a = k := by rw [h]; exact hne
        simp [List.filter_cons, h, hk, hne, ih]
      · by_cases hk : f a = k <;>
          simp [List.filter_cons, h, hk, hne, Ne.symm hne, ih]

/-- Mapped sums agree when the functions agree on the list. -/
theorem sum_map_congr {κ : Type} (F G : κ → ℚ) :
    ∀ ks : List κ, (∀ k ∈ ks, F k = G k) → (ks.map F).sum = (ks.map G).sum := by
  intro ks
  induction ks with
  | nil => intro _; rfl
  | cons k ks ih =>
      intro h
      simp only [List.map_cons, List.sum_cons]
      rw [h k (by simp), ih (fun x hx => h x (by simp [hx]))]

/-- Group-by-sum partitions the total: summing each key fiber over a
duplicate-free key list covering every element gives the whole sum. -/
theorem sum_over_fibers {α κ : Type} [DecidableEq κ] (g : α → ℚ) (f : α → κ)
    (keys : List κ) :
    ∀ l : List α, keys.Nodup → (∀ x ∈ l, f x ∈ keys) →
      (keys.map (fun k => ((l.filter (fun x => decide (f x = k))).map g).sum)).sum
        = (l.map g).sum := by
  induction keys with
  | nil =>
      intro l _ hcov
      have hl : l = [] := by
        cases l with
        | nil => rfl
        | cons a l => exact absurd (hcov a (by simp)) (by simp)
      simp [hl]
  | cons k ks ih =>
      intro l hnd hcov
      have hnd' := List.nodup_cons.mp hnd
      simp only [List.map_cons, List.sum_cons]
      have h1 :
          (ks.map (fun kk => ((l.filter (fun x => decide (f x = kk))).map g).sum)).sum
            = (ks.map (fun kk =>
                (((l.filter (fun x => !(decide (f x = k)))).filter
                  (fun x => decide (f x = kk))).map g).sum)).sum := by
        refine sum_map_congr _ _ ks (fun kk hkk => ?_)
        have hne : kk ≠ k := by rintro rfl; exact hnd'.1 hkk
        rw [fiber_filter_ne f k kk hne l]
      have h2 :
          (ks.map (fun kk =>
              (((l.filter (fun x => !(decide (f x = k)))).filter
                (fun x => decide (f x = kk))).map g).sum)).sum
            = ((l.filter (fun x => !(decide (f x = k)))).map g).sum := by
        refine ih _ hnd'.2 (fun x hx => ?_)
        have hm := List.mem_filter.mp hx
        have hx1 := hcov x hm.1
        have hx2 : ¬ f x = k := by simpa using hm.2
        simpa [hx2] using hx1
      rw [h1, h2]
      exact sum_map_filter_split g (fun x => decide (f x = k)) l

/-- Per-category group-by sum of amounts (line 63): one entry per
distinct observed category, carrying the sum of the amounts of the rows in
that category.  (pandas sorts the group keys; the key order is irrelevant
to the claims, so first-occurrence order is used here.) -/
def categorySummary (txs : List Transaction) : List (String × ℚ) :=
  (txs.map Transaction.category).dedup.map
    (fun c => (c, ((txs.filter (fun tx => decide (tx.category = c))).map
      Transaction.amount).sum))

/-- Per-month group-by sum of amounts (line 103): one entry per distinct
observed non-null month.  pandas groupby drops rows whose group key is NA
(its default dropna behaviour), so a NaT month — a blank cell of a present
Date column — is never a group key and its rows are excluded from the
monthly summary. -/
def monthlySummary (txs : List Transaction) : List ((Int × Int) × ℚ) :=
  (txs.filterMap Transaction.month).dedup.map
    (fun m => (m, ((txs.filter (fun tx => decide (tx.month = some m))).map
      Transaction.amount).sum))

/-- Total spent (line 144): the sum of the
category-summary values. -/
def total (txs : List Transaction) : ℚ :=
  ((categorySummary txs).map Prod.snd).sum

/-- C2 amended -- The category summary values sum to `total`, which equals
the sum of all cleaned transaction amounts; the monthly summary values sum
to the amount total of the transactions with a non-null month (pandas
groupby drops the NaT key), hence to `total` whenever every cleaned
transaction has a month. -/
theorem summaries_partition_total_amended (txs : List Transaction) :
    ((categorySummary txs).map Prod.snd).sum = total txs ∧
    total txs = (txs.map Transaction.amount).sum ∧
    ((monthlySummary txs).map Prod.snd).sum
      = ((txs.filter (fun tx => tx.month.isSome)).map Transaction.amount).sum ∧
    ((∀ tx ∈ txs, tx.month.isSome = true) →
      ((monthlySummary txs).map Prod.snd).sum = total txs) := by
  have hc :
      ((categorySummary txs).map Prod.snd).sum = (txs.map Transaction.amount).sum := by
    unfold categorySummary
    rw [List.map_map]
    simpa [Function.comp] using
      sum_over_fibers Transaction.amount Transaction.category
        ((txs.map Transaction.category).dedup) txs (List.nodup_dedup _)
        (fun x hx => List.mem_dedup.mpr (List.mem_map_of_mem _ hx))
  have hfib : ∀ m : Int × Int,
      txs.filter (fun tx => decide (tx.month = some m))
        = (txs.filter (fun tx => tx.month.isSome)).filter
            (fun tx => decide (tx.month = some m)) := by
    intro m
    rw [List.filter_filter]
    refine (List.filter_congr ?_).symm
    intro tx _
    cases h : tx.month <;> simp [h]
  have hm :
      ((monthlySummary txs).map Prod.snd).sum
        = ((txs.filter (fun tx => tx.month.isSome)).map Transaction.amount).sum := by
    unfold monthlySummary
    rw [List.map_map]
    have h1 :
        ((txs.filterMap Transaction.month).dedup.map
          (Prod.snd ∘ fun m => (m, ((txs.filter
            (fun tx => decide (tx.month = some m))).map Transaction.amount).sum))).sum
          = ((txs.filterMap Transaction.month).dedup.map
            (fun m => (((txs.filter (fun tx => tx.month.isSome)).filter
              (fun tx => decide (tx.month = some m))).map
                Transaction.amount).sum)).sum := by
      refine sum_map_congr _ _ _ (fun m _ => ?_)
      simp only [Function.comp]
      rw [hfib m]
    have h2 :
        ((txs.filterMap Transaction.month).dedup.map
          (fun m => (((txs.filter (fun tx => tx.month.isSome)).filter
            (fun tx => decide (tx.month = some m))).map Transaction.amount).sum)).sum
          = (((txs.filterMap Transaction.month).dedup.map some).map
            (fun k => (((txs.filter (fun tx => tx.month.isSome)).filter
              (fun tx => decide (tx.month = k))).map Transaction.amount).sum)).sum := by
      rw [List.map_map]
      exact congrArg List.sum (List.map_congr_left (fun a _ => rfl))
    rw [h1, h2]
    refine sum_over_fibers Transaction.amount Transaction.month _ _
      ((List.nodup_dedup _).map (Option.some_injective _)) (fun x hx => ?_)
    have hxm := List.mem_filter.mp hx
    rcases Option.isSome_iff_exists.mp hxm.2 with ⟨m, hmx⟩
    rw [hmx]
    exact List.mem_map_of_mem _
      (List.mem_dedup.mpr (List.mem_filterMap.mpr ⟨x, hxm.1, hmx⟩))
  refine ⟨rfl, hc, hm, fun hall => ?_⟩
  rw [hm, List.filter_eq_self.mpr hall]
  exact hc.symm

/-- Closed instance of `summaries_partition_total_amended` on a one-row
sequence whose month is present: the monthly summary values sum to the
total. -/
theorem summaries_partition_total_amended_witness :
    ((monthlySummary
      [(⟨"Aldi", 55, "groceries", some 2, some (1970, 1)⟩ : Transaction)]).map
        Prod.snd).sum
      = total [⟨"Aldi", 55, "groceries", some 2, some (1970, 1)⟩] :=
  (summaries_partition_total_amended _).2.2.2 (by decide)

/-- Actual spend of one category (lines 125-128): the sum of the amounts
of the rows whose category equals c. -/
def actualFor (txs : List Transaction) (c : String) : ℚ :=
  ((txs.filter (fun tx => decide (tx.category = c))).map Transaction.amount).sum

/-- The budget-vs-actual table (lines 121-130), hard-coded
to the four categories groceries, rent, utilities, entertainment with the
user-supplied budgets and the actual per-category sums. -/
def budget_data (txs : List Transaction) (bg br bu be : ℚ) :
    List (String × ℚ × ℚ) :=
  [("groceries", bg, actualFor txs "groceries"),
   ("rent", br, actualFor txs "rent"),
   ("utilities", bu, actualFor txs "utilities"),
   ("entertainment", be, actualFor txs "entertainment")]

/-- C3 -- `budget_data` always has exactly 4 entries, whose categories are
groceries, rent, utilities, entertainment in that order, whatever the
data contains; `"other"` never appears among them; and a category with no
transactions has actual spend 0. -/
theorem budget_data_fixed_four (txs : List Transaction) (bg br bu be : ℚ) :
    (budget_data txs bg br bu be).length = 4 ∧
    (budget_data txs bg br bu be).map Prod.fst =
      ["groceries", "rent", "utilities", "entertainment"] ∧
    "other" ∉ (budget_data txs bg br bu be).map Prod.fst ∧
    (∀ c : String, (∀ tx ∈ txs, tx.category ≠ c) → actualFor txs c = 0) := by
  refine ⟨rfl, rfl, by simp [budget_data], fun c hc => ?_⟩
  unfold actualFor
  have hnil : txs.filter (fun tx => decide (tx.category = c)) = [] := by
    rw [List.filter_eq_nil_iff]
    intro tx htx
    simpa using hc tx htx
  rw [hnil]
  rfl

/-- Closed instance of `budget_data_fixed_four` on the empty transaction
list: 4 entries, and the actual spend of a category with no transactions
is 0. -/
theorem budget_data_fixed_four_witness :
    (budget_data [] 0 0 0 0).length = 4 ∧ actualFor [] "other" = 0 :=
  ⟨(budget_data_fixed_four [] 0 0 0 0).1,
   (budget_data_fixed_four [] 0 0 0 0).2.2.2 "other" (by simp)⟩

/-- The literal tips table of `saving_tips` (lines 69-75), in declaration
order. -/
def tipsTable : List (String × String) :=
  [("groceries",
    "Consider buying in bulk, using coupons, and shopping at discount stores."),
   ("rent",
    "Try to negotiate a lower rent or consider moving to a more affordable place."),
   ("utilities",
    "Turn off unused electronics, and use energy-efficient appliances."),
   ("entertainment",
    "Cut down on subscriptions and find free or low-cost entertainment options."),
   ("other",
    "Analyze discretionary expenses and reduce non-essential spending.")]

/-- The tips lookup (lines 68-76): look the category up in the fixed
table and fall back to the literal default string when it is absent. -/
def saving_tips (category : String) : String :=
  match tipsTable.find? (fun e => decide (e.1 = category)) with
  | some e => e.2
  | none => "No tips available."

/-- C4 counterexample -- the claim says an unknown category falls back to
the tip text of the "other" category; in the code the fallback is the
distinct literal "No tips available.".  At the concrete input "food" the
two differ. -/
theorem saving_tips_fallback_counterexample :
    saving_tips "food" = "No tips available." ∧
    saving_tips "other" =
      "Analyze discretionary expenses and reduce non-essential spending." ∧
    saving_tips "food" ≠ saving_tips "other" := by
  refine ⟨rfl, rfl, ?_⟩
  decide

/-- C4 amended -- `saving_tips` is a fixed lookup table: each of the five
default categories gets its own bespoke text, and any category name not in
the table falls back to the literal default string "No tips available."
(not the "other" tip text). -/
theorem saving_tips_lookup_table (c : String)
    (hc : c ∉ tipsTable.map Prod.fst) :
    saving_tips "groceries" =
      "Consider buying in bulk, using coupons, and shopping at discount stores." ∧
    saving_tips "rent" =
      "Try to negotiate a lower rent or consider moving to a more affordable place." ∧
    saving_tips "utilities" =
      "Turn off unused electronics, and use energy-efficient appliances." ∧
    saving_tips "entertainment" =
      "Cut down on subscriptions and find free or low-cost entertainment options." ∧
    saving_tips "other" =
      "Analyze discretionary expenses and reduce non-essential spending." ∧
    saving_tips c = "No tips available." := by
  refine ⟨rfl, rfl, rfl, rfl, rfl, ?_⟩
  have hnone : tipsTable.find? (fun e => decide (e.1 = c)) = none := by
    rw [List.find?_eq_none]
    intro e he
    have : e.1 ≠ c := by
      intro h
      exact hc (h ▸ List.mem_map_of_mem Prod.fst he)
    simp [this]
  simp [saving_tips, hnone]

/-- Closed instance of `saving_tips_lookup_table` at the unknown category
"food". -/
theorem saving_tips_lookup_table_witness :
    saving_tips "food" = "No tips available." :=
  (saving_tips_lookup_table "food" (by decide)).2.2.2.2.2

/-- Year-month bucket of an epoch day number, by the standard
civil-from-days conversion — the (year, month) pair that
`pd.to_datetime` and the month-period conversion derive from a date
(line 56). -/
def monthOf (z : Int) : Int × Int :=
  let z2 := z + 719468
  let era := (if 0 ≤ z2 then z2 else z2 - 146096) / 146097
  let doe := z2 - era * 146097
  let yoe := (doe - doe / 1460 + doe / 36524 - doe / 146096) / 365
  let y := yoe + era * 400
  let doy := doe - (365 * yoe + yoe / 4 - yoe / 100)
  let mp := (5 * doy + 2) / 153
  let m := mp + (if mp < 10 then 3 else -9)
  (if m ≤ 2 then y + 1 else y, m)

/-- One row of the uploaded CSV, restricted to the columns the pipeline
reads.  `description`: `none` models a null cell (dropped by `dropna`).
`amount`: the outer `Option` is cell presence, the inner `Option` is the
outcome that `pd.to_numeric` in coerce mode gives the cell — `some q`
when the cell is numeric or a numeric-like string of value `q`, `none`
when coercion fails (NaN).  `date`: the parsed date cell, when present. -/
structure RawRow where
  description : Option String
  amount : Option (Option ℚ)
  date : Option Int
deriving DecidableEq

/-- The uploaded table: which of the three columns exist, plus the rows. -/
structure RawTable where
  hasDescription : Bool
  hasAmount : Bool
  hasDate : Bool
  rows : List RawRow
deriving DecidableEq

/-- The single fatal validation failure (line 44): a required column is
missing. -/
inductive ValidationError where
  | missingColumn
deriving DecidableEq

/-- Builds one cleaned transaction from a kept raw row and its assigned
date (lines 48, 50, 56): the amount is the successful numeric coercion,
the category comes from `categorize`, the month from the date. -/
def mkTransaction (rules : List (String × List String))
    (p : RawRow × Option Int) : Transaction :=
  { description := p.1.description.getD ""
    amount := (p.1.amount.bind id).getD 0
    category := categorize rules (p.1.description.getD "")
    date := p.2
    month := p.2.map monthOf }

/-- Date assignment (lines 53-55): keep the parsed `Date` column when it
exists, otherwise give row `i` of the cleaned frame the date
`today - i` days. -/
def assignDates (t : RawTable) (today : Int) (rows : List RawRow) :
    List (RawRow × Option Int) :=
  if t.hasDate then rows.map (fun r => (r, r.date))
  else rows.enum.map (fun p => (p.2, some (today - (p.1 : Int))))

/-- The upload handler pipeline (lines 43-56): fail when `Description` or
`Amount` is missing; otherwise drop rows with a null description or
amount, coerce amounts and drop the rows whose coercion fails, then
categorize, date and month-bucket the survivors. -/
def validate_and_clean (rules : List (String × List String)) (t : RawTable)
    (today : Int) : Except ValidationError (List Transaction) :=
  if !t.hasDescription || !t.hasAmount then
    .error .missingColumn
  else
    let rows1 := t.rows.filter (fun r => r.description.isSome && r.amount.isSome)
    let rows2 := rows1.filter (fun r => (r.amount.bind id).isSome)
    .ok ((assignDates t today rows2).map (mkTransaction rules))

/-- C5 -- When the input lacks the description column or the amount
column, `validate_and_clean` fails with the missing-column error and
produces no cleaned rows or other output. -/
theorem validate_missing_column_fails (rules : List (String × List String))
    (t : RawTable) (today : Int)
    (h : t.hasDescription = false ∨ t.hasAmount = false) :
    validate_and_clean rules t today = .error .missingColumn := by
  unfold validate_and_clean
  rcases h with h | h <;> simp [h]

/-- Closed instance of `validate_missing_column_fails`: a table with a
description column but no amount column is rejected. -/
theorem validate_missing_column_fails_witness :
    validate_and_clean categories
      { hasDescription := true, hasAmount := false, hasDate := false,
        rows := [{ description := some "Walmart", amount := none, date := none }] }
      0 = .error .missingColumn :=
  validate_missing_column_fails categories _ 0 (Or.inr rfl)

/-- Following the spec wording for the cleaning step: a raw row is kept
exactly when its description is present and its amount is present and
numerically coercible. -/
def keepsRow (r : RawRow) : Bool :=
  r.description.isSome && (r.amount.bind id).isSome

/-- The cleaned transaction list as the spec words it: a single filter
pass keeping exactly the `keepsRow` rows, then the same dating and
categorization as the code. -/
def spec_cleaned (rules : List (String × List String)) (t : RawTable)
    (today : Int) : List Transaction :=
  (assignDates t today (t.rows.filter keepsRow)).map (mkTransaction rules)

/-- The two successive drop passes of the code test the same thing as the
single spec-side predicate. -/
theorem keep_split (r : RawRow) :
    ((r.amount.bind id).isSome && (r.description.isSome && r.amount.isSome))
      = keepsRow r := by
  rcases r with ⟨d, a, dt⟩
  cases a with
  | none => simp [keepsRow]
  | some ia => cases d <;> cases ia <;> simp [keepsRow, Option.bind]

/-- C6 -- With both required columns present, `validate_and_clean`
succeeds (non-numeric amounts are discarded silently, never an error) and
keeps exactly the rows with a present description and a coercible amount,
in order; every surviving transaction carries the successfully coerced
numeric amount of its raw row, so no dropped or null amount is ever
retained. -/
theorem validate_keeps_exactly (rules : List (String × List String))
    (t : RawTable) (today : Int)
    (hd : t.hasDescription = true) (ha : t.hasAmount = true) :
    validate_and_clean rules t today = .ok (spec_cleaned rules t today) ∧
    ∀ tx ∈ spec_cleaned rules t today, ∃ r ∈ t.rows,
      keepsRow r = true ∧ r.amount.bind id = some tx.amount := by
  constructor
  · unfold validate_and_clean spec_cleaned
    simp only [hd, ha, Bool.not_true, Bool.or_self, Bool.false_eq_true,
      if_false, List.filter_filter]
    rw [funext keep_split]
  · intro tx htx
    unfold spec_cleaned at htx
    rcases List.mem_map.mp htx with ⟨p, hp, rfl⟩
    have hpr : p.1 ∈ t.rows.filter keepsRow := by
      unfold assignDates at hp
      by_cases hdt : t.hasDate
      · simp only [hdt, if_true] at hp
        rcases List.mem_map.mp hp with ⟨r, hr, rfl⟩
        exact hr
      · simp only [hdt, if_false, Bool.false_eq_true] at hp
        rcases List.mem_map.mp hp with ⟨q, hq, rfl⟩
        rcases q with ⟨i, r⟩
        have := List.mem_enum hq
        exact this.2 ▸ List.getElem_mem _
    have hkr := List.mem_filter.mp hpr
    have hsome : (p.1.amount.bind id).isSome = true := by
      have h2 := hkr.2
      simp only [keepsRow, Bool.and_eq_true] at h2
      exact h2.2
    rcases Option.isSome_iff_exists.mp hsome with ⟨q, hq⟩
    have hamt : (mkTransaction rules p).amount = (p.1.amount.bind id).getD 0 := rfl
    refine ⟨p.1, hkr.1, hkr.2, ?_⟩
    rw [hamt, hq]
    rfl

/-- Closed instance of `validate_keeps_exactly` on a four-row table: a
good row, a null description, a null amount, and a non-numeric amount —
the pipeline output equals the single-pass cleaned list. -/
theorem validate_keeps_exactly_witness :
    validate_and_clean categories
      { hasDescription := true, hasAmount := true, hasDate := false,
        rows :=
          [{ description := some "Walmart run", amount := some (some (5423/100)),
             date := none },
           { description := none, amount := some (some 10), date := none },
           { description := some "Netflix", amount := none, date := none },
           { description := some "Cash", amount := some none, date := none }] }
      0 = .ok (spec_cleaned categories
      { hasDescription := true, hasAmount := true, hasDate := false,
        rows :=
          [{ description := some "Walmart run", amount := some (some (5423/100)),
             date := none },
           { description := none, amount := some (some 10), date := none },
           { description := some "Netflix", amount := none, date := none },
           { description := some "Cash", amount := some none, date := none }] }
      0) :=
  (validate_keeps_exactly categories _ 0 rfl rfl).1

/-- With both required columns present the pipeline reduces to the
mapped, dated, doubly filtered row list. -/
theorem validate_ok_eq (rules : List (String × List String)) (t : RawTable)
    (today : Int) (hd : t.hasDescription = true) (ha : t.hasAmount = true) :
    validate_and_clean rules t today =
      .ok ((assignDates t today
        ((t.rows.filter (fun r => r.description.isSome && r.amount.isSome)).filter
          (fun r => (r.amount.bind id).isSome))).map (mkTransaction rules)) := by
  unfold validate_and_clean
  simp [hd, ha]

/-- A successful pipeline run means both required columns were present. -/
theorem validate_ok_columns (rules : List (String × List String)) (t : RawTable)
    (today : Int) (txs : List Transaction)
    (hok : validate_and_clean rules t today = .ok txs) :
    t.hasDescription = true ∧ t.hasAmount = true := by
  cases hd : t.hasDescription with
  | false =>
      exfalso
      unfold validate_and_clean at hok
      rw [hd] at hok
      simp at hok
  | true =>
      cases ha : t.hasAmount with
      | false =>
          exfalso
          unfold validate_and_clean at hok
          rw [hd, ha] at hok
          simp at hok
      | true => exact ⟨rfl, rfl⟩

/-- Every transaction the pipeline emits has its category computed by
`categorize` from its own description and its month derived from its own
date. -/
theorem validate_output_shape (rules : List (String × List String))
    (t : RawTable) (today : Int) (txs : List Transaction)
    (hok : validate_and_clean rules t today = .ok txs) :
    ∀ tx ∈ txs, tx.category = categorize rules tx.description ∧
      tx.month = tx.date.map monthOf := by
  obtain ⟨hd, ha⟩ := validate_ok_columns rules t today txs hok
  rw [validate_ok_eq rules t today hd ha] at hok
  injection hok with hok
  subst hok
  intro tx htx
  rcases List.mem_map.mp htx with ⟨p, _, rfl⟩
  exact ⟨rfl, rfl⟩

/-- C7 -- When the table has no date column, cleaned row `i` is assigned
the synthetic date `today - i`: row 0 gets today, row 1 yesterday, and so
on backward in row order. -/
theorem validate_no_date_counts_backward (rules : List (String × List String))
    (t : RawTable) (today : Int) (txs : List Transaction)
    (hnd : t.hasDate = false)
    (hok : validate_and_clean rules t today = .ok txs) :
    ∀ (i : ℕ) (h : i < txs.length), txs[i].date = some (today - (i : Int)) := by
  obtain ⟨hd, ha⟩ := validate_ok_columns rules t today txs hok
  rw [validate_ok_eq rules t today hd ha] at hok
  injection hok with hok
  subst hok
  intro i h
  have hAD : assignDates t today
      ((t.rows.filter (fun r => r.description.isSome && r.amount.isSome)).filter
        (fun r => (r.amount.bind id).isSome)) =
      ((t.rows.filter (fun r => r.description.isSome && r.amount.isSome)).filter
        (fun r => (r.amount.bind id).isSome)).enum.map
        (fun p => (p.2, some (today - (p.1 : Int)))) := by
    unfold assignDates
    rw [hnd]
    simp
  revert h
  rw [hAD]
  intro h
  simp [List.getElem_map, List.getElem_enum, mkTransaction]

/-- Closed instance of `validate_no_date_counts_backward`: a dateless
two-row table processed with today = 3 gives its rows the dates 3 and 2. -/
theorem validate_no_date_counts_backward_witness :
    validate_and_clean categories
      { hasDescription := true, hasAmount := true, hasDate := false,
        rows :=
          [{ description := some "Rent payment", amount := some (some 800),
             date := none },
           { description := some "Aldi", amount := some (some 55),
             date := none }] }
      3 = .ok
        [{ description := "Rent payment", amount := 800, category := "rent",
           date := some 3, month := some (1970, 1) },
         { description := "Aldi", amount := 55, category := "groceries",
           date := some 2, month := some (1970, 1) }] ∧
    (([{ description := "Rent payment", amount := 800, category := "rent",
         date := some 3, month := some (1970, 1) },
       { description := "Aldi", amount := 55, category := "groceries",
         date := some 2, month := some (1970, 1) }] :
      List Transaction).get ⟨1, by decide⟩).date = some (3 - (1 : Int)) := by
  constructor
  · rfl
  · exact
      validate_no_date_counts_backward categories
        { hasDescription := true, hasAmount := true, hasDate := false,
          rows :=
            [{ description := some "Rent payment", amount := some (some 800),
               date := none },
             { description := some "Aldi", amount := some (some 55),
               date := none }] }
        3 _ rfl (by rfl) 1 (by decide)

/-- Re-serializing one cleaned transaction as a raw row, as the CSV
download (line 150) would: the description and numeric amount are present,
the date column carries the assigned date. -/
def toRawRow (tx : Transaction) : RawRow :=
  { description := some tx.description
    amount := some (some tx.amount)
    date := tx.date }

/-- Re-serializing a cleaned transaction list as an uploaded table: all
three columns exist. -/
def toRawTable (txs : List Transaction) : RawTable :=
  { hasDescription := true, hasAmount := true, hasDate := true,
    rows := txs.map toRawRow }

/-- Mapping a function that fixes every element of a list is the
identity. -/
theorem map_eq_self_of {α : Type} (F : α → α) :
    ∀ l : List α, (∀ x ∈ l, F x = x) → l.map F = l := by
  intro l
  induction l with
  | nil => intro _; rfl
  | cons a l ih =>
      intro h
      rw [List.map_cons, h a (by simp), ih (fun x hx => h x (by simp [hx]))]

/-- C9 -- The pipeline is idempotent on its own output: feeding the
cleaned, dated transactions back in (with every column present) drops no
row and reproduces every description, amount, category, date and month
unchanged, whatever "today" is on the second run. -/
theorem validate_and_clean_idempotent (rules : List (String × List String))
    (t : RawTable) (today today2 : Int) (txs : List Transaction)
    (hok : validate_and_clean rules t today = .ok txs) :
    validate_and_clean rules (toRawTable txs) today2 = .ok txs := by
  have hshape := validate_output_shape rules t today txs hok
  rw [validate_ok_eq rules (toRawTable txs) today2 rfl rfl]
  have h1 : (toRawTable txs).rows.filter
      (fun r => r.description.isSome && r.amount.isSome) = (toRawTable txs).rows :=
    List.filter_eq_self.mpr (by
      intro r hr
      rcases List.mem_map.mp hr with ⟨tx, _, rfl⟩
      rfl)
  rw [h1]
  have h2 : (toRawTable txs).rows.filter
      (fun r => (r.amount.bind id).isSome) = (toRawTable txs).rows :=
    List.filter_eq_self.mpr (by
      intro r hr
      rcases List.mem_map.mp hr with ⟨tx, _, rfl⟩
      rfl)
  rw [h2]
  have hAD : assignDates (toRawTable txs) today2 (toRawTable txs).rows =
      (toRawTable txs).rows.map (fun r => (r, r.date)) := by
    unfold assignDates
    rfl
  rw [hAD]
  show Except.ok ((((txs.map toRawRow).map (fun r => (r, r.date))).map
    (mkTransaction rules))) = Except.ok txs
  rw [List.map_map, List.map_map]
  have hfix : ∀ tx ∈ txs,
      ((mkTransaction rules ∘ fun r => (r, r.date)) ∘ toRawRow) tx = tx := by
    intro tx htx
    obtain ⟨hcat, hmon⟩ := hshape tx htx
    cases tx with
    | mk d a c dt m =>
        have hred : ((mkTransaction rules ∘ fun r => (r, r.date)) ∘ toRawRow)
            (Transaction.mk d a c dt m) =
            Transaction.mk d a (categorize rules d) dt (dt.map monthOf) := rfl
        rw [hred, ← hcat, ← hmon]
  rw [map_eq_self_of _ txs hfix]

/-- Closed instance of `validate_and_clean_idempotent`: re-ingesting the
cleaned output of a dateless two-row upload reproduces it exactly, with a
different "today". -/
theorem validate_and_clean_idempotent_witness :
    validate_and_clean categories
      (toRawTable
        [{ description := "Rent payment", amount := 800, category := "rent",
           date := some 3, month := some (1970, 1) },
         { description := "Aldi", amount := 55, category := "groceries",
           date := some 2, month := some (1970, 1) }])
      9 = .ok
        [{ description := "Rent payment", amount := 800, category := "rent",
           date := some 3, month := some (1970, 1) },
         { description := "Aldi", amount := 55, category := "groceries",
           date := some 2, month := some (1970, 1) }] :=
  validate_and_clean_idempotent categories
    { hasDescription := true, hasAmount := true, hasDate := false,
      rows :=
        [{ description := some "Rent payment", amount := some (some 800),
           date := none },
         { description := some "Aldi", amount := some (some 55),
           date := none }] }
    3 9 _ rfl

/-- A one-row upload with a present Date column whose only date cell is
blank: the row survives cleaning with month NaT. -/
def natTable : RawTable :=
  { hasDescription := true, hasAmount := true, hasDate := true,
    rows := [{ description := some "Rent payment", amount := some (some 10),
               date := none }] }

/-- The cleaned transaction `natTable` produces: category rent, no date,
no month. -/
def natTx : Transaction :=
  { description := "Rent payment", amount := 10, category := "rent",
    date := none, month := none }

/-- C2 counterexample -- the claim says the monthly summary values always
sum to `total`; but pandas groupby drops the NaT month key, so a cleaned
frame reachable through the pipeline (a present Date column with one blank
cell) has a monthly sum of 0 while `total` is 10. -/
theorem monthly_nat_key_counterexample :
    validate_and_clean categories natTable 0 = .ok [natTx] ∧
    total [natTx] = 10 ∧
    ((monthlySummary [natTx]).map Prod.snd).sum = 0 ∧
    ((monthlySummary [natTx]).map Prod.snd).sum ≠ total [natTx] :=
  ⟨rfl, by norm_num [total, categorySummary, natTx],
   by norm_num [monthlySummary, natTx],
   by norm_num [total, categorySummary, monthlySummary, natTx]⟩

end ExpenseCategorizer
